import Mathlib

/-!
Verification of the Backpack connector request-signing subsystem
(`hummingbot/connector/exchange/backpack/backpack_auth.py`) and of
`backpack_utils.is_symbol_information_valid`, via a shallow embedding.

Conventions of the embedding:
* Python scalar parameter/header values are modelled by `PV` (string or int);
  `PV.render` is Python's `str`.
* Python `dict`s are modelled as association lists in insertion order;
  `dictUpdate` is `dict.update` (existing keys keep their position, new keys
  are appended), `lookupKey` is `dict.get`.
* `None`-able fields are `Option`s; Python truthiness of a dict is
  "the list is non-empty".
* Byte strings are `List Nat` (each entry < 256).
* Exceptions are modelled by `Option` results.
* The time source `time_provider.time() * 1e3` is modelled as a stream
  `Nat → Int` of millisecond readings together with the index of the next
  reading; `_sign_payload` consumes exactly the reading at its index.
-/

/-- Python scalar value used for request parameters and headers
(the sampled requests only carry strings and ints). -/
inductive PV where
  | s (v : String)
  | i (v : Int)
deriving DecidableEq, Repr

/-- Python `str()` of a scalar value. -/
def PV.render : PV → String
  | .s v => v
  | .i v => toString v

/-- `RESTMethod` enum from
`hummingbot/core/web_assistant/connections/data_types.py` (the members used
by the connector). -/
inductive RESTMethod where
  | GET
  | POST
  | PUT
  | DELETE
deriving DecidableEq, Repr

/-- Association-list model of a Python `dict[str, Any]` in insertion order. -/
abbrev Params := List (String × PV)

/-- `k in d` for a Python dict. -/
def hasKey (k : String) (l : Params) : Bool :=
  l.any (fun p => p.1 == k)

/-- `d.get(k)` for a Python dict (first entry wins; real dicts have unique
keys, so this is exact on dict-shaped lists). -/
def lookupKey (k : String) : Params → Option PV
  | [] => none
  | p :: r => if p.1 = k then some p.2 else lookupKey k r

/-- `d[k] = v` for a Python dict: an existing key keeps its position and gets
the new value, a new key is appended at the end. -/
def setKey (l : Params) (k : String) (v : PV) : Params :=
  if hasKey k l then l.map (fun p => if p.1 = k then (k, v) else p)
  else l ++ [(k, v)]

/-- `d.update(other)` for Python dicts. -/
def dictUpdate (l other : Params) : Params :=
  other.foldl (fun acc p => setKey acc p.1 p.2) l

/-- The keys of a dict-shaped list are pairwise distinct. -/
def keysNodup (l : Params) : Prop :=
  (l.map Prod.fst).Nodup

instance (l : Params) : Decidable (keysNodup l) :=
  inferInstanceAs (Decidable ((l.map Prod.fst).Nodup))

/-- `RESTRequest` dataclass from
`hummingbot/core/web_assistant/connections/data_types.py`, restricted to the
fields the signing code reads and writes.  The URL is modelled as the string
it must be for `urlparse` to succeed. -/
structure RESTRequest where
  method : RESTMethod
  url : String
  params : Option Params
  data : Option Params
  headers : Option Params
deriving DecidableEq, Repr

/-! ### `urllib.parse.quote_plus` / `urlencode` -/

/-- UTF-8 encoding of one character, as a list of bytes. -/
def utf8EncodeChar (c : Char) : List Nat :=
  let n := c.toNat
  if n < 0x80 then [n]
  else if n < 0x800 then [0xC0 + n / 64, 0x80 + n % 64]
  else if n < 0x10000 then [0xE0 + n / 4096, 0x80 + (n / 64) % 64, 0x80 + n % 64]
  else [0xF0 + n / 262144, 0x80 + (n / 4096) % 64, 0x80 + (n / 64) % 64, 0x80 + n % 64]

/-- `s.encode()`: UTF-8 bytes of a string. -/
def utf8Encode (s : String) : List Nat :=
  (s.data.map utf8EncodeChar).flatten

/-- Uppercase hexadecimal digit. -/
def hexDigitUpper (n : Nat) : Char :=
  "0123456789ABCDEF".data.getD n '0'

/-- Lowercase hexadecimal digit. -/
def hexDigitLower (n : Nat) : Char :=
  "0123456789abcdef".data.getD n '0'

/-- `%XX` escape of one byte (uppercase, as CPython `quote` emits). -/
def percentByte (b : Nat) : List Char :=
  ['%', hexDigitUpper (b / 16), hexDigitUpper (b % 16)]

/-- CPython `quote`'s always-safe characters with `safe=''`
(ASCII letters, digits, `_.-~`). -/
def isQuoteSafe (c : Char) : Bool :=
  ('A' ≤ c && c ≤ 'Z') || ('a' ≤ c && c ≤ 'z') || ('0' ≤ c && c ≤ '9') ||
    c == '_' || c == '.' || c == '-' || c == '~'

/-- `urllib.parse.quote_plus(s, safe='')`: space becomes `+`, safe characters
pass through, every other character is `%XX`-escaped per UTF-8 byte. -/
def quote_plus (s : String) : String :=
  ⟨(s.data.map (fun c =>
      if c = ' ' then ['+']
      else if isQuoteSafe c then [c]
      else ((utf8EncodeChar c).map percentByte).flatten)).flatten⟩

/-- `urllib.parse.urlencode(d)` with the default `quote_via=quote_plus`:
`quote_plus(str(k)) + "=" + quote_plus(str(v))` joined by `&` in dict
order. -/
def urlencode (l : Params) : String :=
  String.intercalate "&"
    (l.map (fun p => quote_plus p.1 ++ "=" ++ quote_plus (PV.render p.2)))

/-! ### `base64.b64decode` / `b64encode` -/

/-- Value of a standard base64 alphabet character, `none` for all others. -/
def b64CharVal (c : Char) : Option Nat :=
  if 'A' ≤ c ∧ c ≤ 'Z' then some (c.toNat - 65)
  else if 'a' ≤ c ∧ c ≤ 'z' then some (c.toNat - 97 + 26)
  else if '0' ≤ c ∧ c ≤ '9' then some (c.toNat - 48 + 52)
  else if c = '+' then some 62
  else if c = '/' then some 63
  else none

/-- Running state of CPython's `binascii.a2b_base64` (legacy, non-strict
mode): decoded bytes in reverse order, position inside the current 4-char
group, pending bits, count of pending pad characters. -/
structure B64State where
  out : List Nat
  quadPos : Nat
  leftchar : Nat
  pads : Nat

/-- CPython `binascii.a2b_base64` with `strict_mode=False` (what
`base64.b64decode` uses): characters outside the alphabet are skipped; a pad
that completes a group ends the decode; a dangling group at the end is an
error (`none`). -/
def a2bBase64 : List Char → B64State → Option (List Nat)
  | [], st => if st.quadPos = 0 then some st.out.reverse else none
  | c :: rest, st =>
    if c = '=' then
      if 2 ≤ st.quadPos ∧ 4 ≤ st.quadPos + (st.pads + 1) then some st.out.reverse
      else a2bBase64 rest { st with pads := if 2 ≤ st.quadPos then st.pads + 1 else st.pads }
    else
      match b64CharVal c with
      | none => a2bBase64 rest st
      | some v =>
        match st.quadPos with
        | 0 => a2bBase64 rest ⟨st.out, 1, v, 0⟩
        | 1 => a2bBase64 rest ⟨(st.leftchar * 4 + v / 16) :: st.out, 2, v % 16, 0⟩
        | 2 => a2bBase64 rest ⟨(st.leftchar * 16 + v / 4) :: st.out, 3, v % 4, 0⟩
        | _ => a2bBase64 rest ⟨(st.leftchar * 64 + v) :: st.out, 0, 0, 0⟩

/-- `base64.b64decode(s)` for a `str` argument: the string must be pure
ASCII (else `ValueError`), then legacy-mode `a2b_base64` runs on it. -/
def b64decode (s : String) : Option (List Nat) :=
  if s.data.all (fun c => c.toNat < 128) then a2bBase64 s.data ⟨[], 0, 0, 0⟩
  else none

/-- Standard base64 alphabet. -/
def b64Char (n : Nat) : Char :=
  "ABCDEFGHIJKLMNOPQRSTUVWXYZabcdefghijklmnopqrstuvwxyz0123456789+/".data.getD n 'A'

/-- `base64.b64encode` on a byte list (standard alphabet, `=` padding). -/
def b64encodeList : List Nat → List Char
  | a :: b :: c :: rest =>
    b64Char (a / 4) :: b64Char (a % 4 * 16 + b / 16) ::
      b64Char (b % 16 * 4 + c / 64) :: b64Char (c % 64) :: b64encodeList rest
  | [a, b] => [b64Char (a / 4), b64Char (a % 4 * 16 + b / 16), b64Char (b % 16 * 4), '=']
  | [a] => [b64Char (a / 4), b64Char (a % 4 * 16), '=', '=']
  | [] => []

/-- `base64.b64encode(..).decode()`: base64 text of a byte list. -/
def b64encodeStr (bs : List Nat) : String :=
  ⟨b64encodeList bs⟩

/-! ### SHA-2 family (FIPS 180-4), HMAC (RFC 2104), Ed25519 (RFC 8032)

Modelled from the spec: the signature primitives live in library code
(`hashlib`, `hmac`, `cryptography.hazmat...ed25519`) that is not part of the
sampled source; the spec fixes them as HMAC-SHA256 (hex digest) and Ed25519
(RFC 8032, deterministic).  They are implemented here in full so that the
signature providers are real executable functions of (secret, message). -/

/-- Largest `k` with `k^3 ≤ n` (binary search with fuel). -/
def icbrtLoop (n : Nat) : Nat → Nat → Nat → Nat
  | 0, lo, _ => lo
  | f + 1, lo, hi =>
    if hi ≤ lo + 1 then lo
    else
      let m := (lo + hi) / 2
      if m * m * m ≤ n then icbrtLoop n f m hi else icbrtLoop n f lo m

/-- Integer cube root. -/
def icbrt (n : Nat) : Nat :=
  icbrtLoop n (n + 2) 0 (n + 2)

/-- First 80 primes: the SHA-2 round constants are the fractional parts of
their cube roots, the initial hash values those of the square roots of the
first 8. -/
def sha2Primes : List Nat :=
  [2, 3, 5, 7, 11, 13, 17, 19, 23, 29, 31, 37, 41, 43, 47, 53, 59, 61, 67,
   71, 73, 79, 83, 89, 97, 101, 103, 107, 109, 113, 127, 131, 137, 139, 149,
   151, 157, 163, 167, 173, 179, 181, 191, 193, 197, 199, 211, 223, 227, 229,
   233, 239, 241, 251, 257, 263, 269, 271, 277, 281, 283, 293, 307, 311, 313,
   317, 331, 337, 347, 349, 353, 359, 367, 373, 379, 383, 389, 397, 401, 409]

/-- Parameters distinguishing SHA-256 from SHA-512: word size in bits, number
of rounds, and the rotation/shift amounts of the four sigma functions. -/
structure ShaSpec where
  w : Nat
  rounds : Nat
  bigS0 : Nat × Nat × Nat
  bigS1 : Nat × Nat × Nat
  smallS0 : Nat × Nat × Nat
  smallS1 : Nat × Nat × Nat

def sha256Spec : ShaSpec := ⟨32, 64, (2, 13, 22), (6, 11, 25), (7, 18, 3), (17, 19, 10)⟩

def sha512Spec : ShaSpec := ⟨64, 80, (28, 34, 39), (14, 18, 41), (1, 8, 7), (19, 61, 6)⟩

/-- Rotate a `w`-bit word right by `n` (the word is assumed `< 2^w`). -/
def rotr (w x n : Nat) : Nat :=
  x / 2 ^ n + x % 2 ^ n * 2 ^ (w - n)

/-- `Σ` functions: xor of three right-rotations. -/
def bigSigma (w : Nat) (p : Nat × Nat × Nat) (x : Nat) : Nat :=
  Nat.xor (rotr w x p.1) (Nat.xor (rotr w x p.2.1) (rotr w x p.2.2))

/-- `σ` functions: xor of two right-rotations and a right-shift. -/
def smallSigma (w : Nat) (p : Nat × Nat × Nat) (x : Nat) : Nat :=
  Nat.xor (rotr w x p.1) (Nat.xor (rotr w x p.2.1) (x / 2 ^ p.2.2))

/-- Round constants: fractional parts of the cube roots of the first
`rounds` primes, at word precision. -/
def shaK (sp : ShaSpec) : List Nat :=
  (sha2Primes.take sp.rounds).map (fun p => icbrt (p * 2 ^ (3 * sp.w)) % 2 ^ sp.w)

/-- Initial hash value: fractional parts of the square roots of the first
8 primes, at word precision. -/
def shaH0 (sp : ShaSpec) : List Nat :=
  (sha2Primes.take 8).map (fun p => Nat.sqrt (p * 2 ^ (2 * sp.w)) % 2 ^ sp.w)

/-- `n` as `k` big-endian bytes. -/
def natToBytesBE : Nat → Nat → List Nat
  | 0, _ => []
  | k + 1, n => natToBytesBE k (n / 256) ++ [n % 256]

/-- Big-endian bytes to a number. -/
def bytesToNatBE (l : List Nat) : Nat :=
  l.foldl (fun acc b => acc * 256 + b) 0

/-- `n` as `k` little-endian bytes. -/
def natToBytesLE : Nat → Nat → List Nat
  | 0, _ => []
  | k + 1, n => n % 256 :: natToBytesLE k (n / 256)

/-- Little-endian bytes to a number. -/
def bytesToNatLE (l : List Nat) : Nat :=
  l.foldr (fun b acc => b + 256 * acc) 0

/-- Split a list into chunks of `n` (fuel-driven). -/
def chunkAux (n : Nat) : Nat → List α → List (List α)
  | 0, _ => []
  | _, [] => []
  | f + 1, l => l.take n :: chunkAux n f (l.drop n)

def chunkList (n : Nat) (l : List α) : List (List α) :=
  chunkAux n l.length l

/-- Merkle–Damgård padding: `0x80`, zeros, then the bit length in a field of
`w/4` bytes, to a multiple of the `2w`-byte block size. -/
def shaPad (sp : ShaSpec) (msg : List Nat) : List Nat :=
  let bb := 2 * sp.w
  let lenB := sp.w / 4
  let zeros := (bb - (msg.length + 1 + lenB) % bb) % bb
  msg ++ 0x80 :: List.replicate zeros 0 ++ natToBytesBE lenB (8 * msg.length)

/-- Message schedule: extend the 16 block words to `rounds` words. -/
def shaSchedule (sp : ShaSpec) (block : List Nat) : List Nat :=
  (List.range (sp.rounds - 16)).foldl
    (fun W _ =>
      let t := W.length
      W ++ [(smallSigma sp.w sp.smallS1 (W.getD (t - 2) 0) + W.getD (t - 7) 0 +
             smallSigma sp.w sp.smallS0 (W.getD (t - 15) 0) + W.getD (t - 16) 0) % 2 ^ sp.w])
    block

/-- One compression round. -/
def shaRound (sp : ShaSpec) (st : List Nat) (wk : Nat × Nat) : List Nat :=
  match st with
  | [a, b, c, d, e, f, g, h] =>
    let t1 := (h + bigSigma sp.w sp.bigS1 e + (Nat.xor (Nat.land e f) (Nat.land ((2 ^ sp.w - 1) - e) g)) +
               wk.2 + wk.1) % 2 ^ sp.w
    let t2 := (bigSigma sp.w sp.bigS0 a +
               (Nat.xor (Nat.land a b) (Nat.xor (Nat.land a c) (Nat.land b c)))) % 2 ^ sp.w
    [(t1 + t2) % 2 ^ sp.w, a, b, c, (d + t1) % 2 ^ sp.w, e, f, g]
  | _ => st

/-- Compress one block into the running hash value. -/
def shaCompress (sp : ShaSpec) (H : List Nat) (block : List Nat) : List Nat :=
  let W := shaSchedule sp block
  let st := (W.zip (shaK sp)).foldl (shaRound sp) H
  (H.zip st).map (fun p => (p.1 + p.2) % 2 ^ sp.w)

/-- Full SHA-2 digest of a byte list. -/
def shaDigest (sp : ShaSpec) (msg : List Nat) : List Nat :=
  let blocks := chunkList (2 * sp.w) (shaPad sp msg)
  let words := blocks.map (fun b => (chunkList (sp.w / 8) b).map bytesToNatBE)
  ((words.foldl (shaCompress sp) (shaH0 sp)).map (natToBytesBE (sp.w / 8))).flatten

def sha256 (msg : List Nat) : List Nat := shaDigest sha256Spec msg

def sha512 (msg : List Nat) : List Nat := shaDigest sha512Spec msg

/-- Lowercase hex of a byte list (`hexdigest`). -/
def bytesToHex (bs : List Nat) : String :=
  ⟨(bs.map (fun b => [hexDigitLower (b / 16), hexDigitLower (b % 16)])).flatten⟩

/-- `hmac.new(key, msg, hashlib.sha256).digest()` (RFC 2104, block size
64 bytes). -/
def hmacSha256 (key msg : List Nat) : List Nat :=
  let k0 := if 64 < key.length then sha256 key else key
  let k := k0 ++ List.replicate (64 - k0.length) 0
  sha256 (k.map (fun b => Nat.xor b 0x5c) ++ sha256 (k.map (fun b => Nat.xor b 0x36) ++ msg))

/-- The symmetric signature of the spec and of the repository's test:
`hmac.new(secret.encode(), message.encode(), hashlib.sha256).hexdigest()`. -/
def hmacSha256Hexdigest (secret message : String) : String :=
  bytesToHex (hmacSha256 (utf8Encode secret) (utf8Encode message))

/-- The field prime of Curve25519, `2^255 - 19`. -/
def edP : Nat := 2 ^ 255 - 19

/-- The group order `2^252 + 27742317777372353535851937790883648493`. -/
def edL : Nat := 2 ^ 252 + 27742317777372353535851937790883648493

/-- Modular exponentiation by squaring (fuel = bit count). -/
def powModLoop (m : Nat) : Nat → Nat → Nat → Nat
  | 0, _, _ => 1 % m
  | f + 1, b, e =>
    if e = 0 then 1 % m
    else
      let h := powModLoop m f (b * b % m) (e / 2)
      if e % 2 = 1 then h * b % m else h

def powMod (b e m : Nat) : Nat :=
  powModLoop m (e + 1) (b % m) e

/-- Inverse mod the field prime (Fermat). -/
def edInv (a : Nat) : Nat := powMod a (edP - 2) edP

/-- The Edwards curve constant `d = -121665/121666 mod p`. -/
def edD : Nat := (edP - 121665) * edInv 121666 % edP

/-- A point in extended homogeneous coordinates `(X : Y : Z : T)` with
`x = X/Z`, `y = Y/Z`, `xy = T/Z`. -/
structure EdPoint where
  x : Nat
  y : Nat
  z : Nat
  t : Nat
deriving Repr

/-- Subtraction mod `p` on reduced values. -/
def edSub (a b : Nat) : Nat := (a + edP - b % edP) % edP

/-- Unified point addition (RFC 8032 section 5.1.4; also used for
doubling). -/
def edAdd (P Q : EdPoint) : EdPoint :=
  let A := edSub P.y P.x * edSub Q.y Q.x % edP
  let B := (P.y + P.x) % edP * ((Q.y + Q.x) % edP) % edP
  let C := 2 * P.t % edP * Q.t % edP * edD % edP
  let D := 2 * P.z % edP * Q.z % edP
  let E := edSub B A
  let F := edSub D C
  let G := (D + C) % edP
  let H := (B + A) % edP
  ⟨E * F % edP, G * H % edP, F * G % edP, E * H % edP⟩

/-- The neutral element. -/
def edZero : EdPoint := ⟨0, 1, 1, 0⟩

/-- Scalar multiplication, double-and-add from the least significant bit
(fuel = bit count). -/
def edMulLoop : Nat → Nat → EdPoint → EdPoint
  | 0, _, _ => edZero
  | f + 1, s, P =>
    if s = 0 then edZero
    else
      let Q := edMulLoop f (s / 2) (edAdd P P)
      if s % 2 = 1 then edAdd Q P else Q

def edMul (s : Nat) (P : EdPoint) : EdPoint :=
  edMulLoop (s + 1) s P

/-- `y` coordinate of the base point: `4/5 mod p`. -/
def edBy : Nat := 4 * edInv 5 % edP

/-- `x` coordinate of the base point, recovered from `y` (RFC 8032
section 5.1.3, with the even square root chosen). -/
def edBx : Nat :=
  let u := edSub (edBy * edBy % edP) 1
  let v := (edD * (edBy * edBy % edP) % edP + 1) % edP
  let x := u * powMod v 3 edP % edP * powMod (u * powMod v 7 edP % edP) ((edP - 5) / 8) edP % edP
  let x := if v * (x * x % edP) % edP = u then x else x * powMod 2 ((edP - 1) / 4) edP % edP
  if x % 2 = 1 then edP - x else x

/-- The Ed25519 base point. -/
def edB : EdPoint := ⟨edBx, edBy, 1, edBx * edBy % edP⟩

/-- Point compression: 32 little-endian bytes of `y` with the parity of `x`
in the top bit. -/
def edCompress (P : EdPoint) : List Nat :=
  let zi := edInv P.z
  let x := P.x * zi % edP
  let y := P.y * zi % edP
  natToBytesLE 32 (y + 2 ^ 255 * (x % 2))

/-- The clamped secret scalar of a 32-byte seed hash prefix: clear bits
0..2 and 255, set bit 254. -/
def edClamp (a : Nat) : Nat :=
  2 ^ 254 + a % 2 ^ 254 / 8 * 8

/-- RFC 8032 Ed25519 signature of `msg` under a 32-byte `seed`
(deterministic: both nonce and challenge are hashes, no randomness). -/
def ed25519_sign (seed msg : List Nat) : List Nat :=
  let h := sha512 seed
  let s := edClamp (bytesToNatLE (h.take 32))
  let hPre := h.drop 32
  let A := edCompress (edMul s edB)
  let r := bytesToNatLE (sha512 (hPre ++ msg)) % edL
  let R := edCompress (edMul r edB)
  let k := bytesToNatLE (sha512 (R ++ A ++ msg)) % edL
  R ++ natToBytesLE 32 ((r + k * s) % edL)

/-! ### `urllib.parse.urlparse(url).path` -/

/-- Characters allowed in a URL scheme after the leading letter. -/
def isSchemeChar (c : Char) : Bool :=
  c.isAlphanum || c == '+' || c == '-' || c == '.'

/-- Scheme detection of CPython `urlsplit`: a leading ASCII letter, scheme
characters up to the first `:`.  Returns the (lowercased) scheme and the
remainder. -/
def splitScheme (l : List Char) : String × List Char :=
  match l.findIdx? (fun c => c == ':') with
  | none => ("", l)
  | some i =>
    if 0 < i ∧ (match l.head? with | some c => c.isAlpha | none => false) = true ∧
        (l.take i).all isSchemeChar then
      (⟨(l.take i).map Char.toLower⟩, l.drop (i + 1))
    else ("", l)

/-- After the scheme, `//netloc` extends to the first `/`, `?` or `#`. -/
def stripNetloc : List Char → List Char
  | '/' :: '/' :: rest => rest.dropWhile (fun c => !(c == '/' || c == '?' || c == '#'))
  | l => l

/-- CPython `_splitparams`: drop the `;params` suffix of the last path
segment. -/
def splitParamsPath (l : List Char) : List Char :=
  if l.contains '/' then
    let lastSlash := match l.reverse.findIdx? (fun c => c == '/') with
      | some ri => l.length - 1 - ri
      | none => 0
    match ((l.drop lastSlash).findIdx? (fun c => c == ';')).map (· + lastSlash) with
    | some i => l.take i
    | none => l
  else
    match l.findIdx? (fun c => c == ';') with
    | some i => l.take i
    | none => l

/-- The schemes for which `urlparse` separates `;params` from the path. -/
def uses_params : List String :=
  ["", "ftp", "hdl", "prospero", "http", "imap", "https", "shttp", "rtsp",
   "rtspu", "sip", "sips", "mms", "sftp", "tel"]

/-- `urllib.parse.urlparse(url).path`: strip scheme, netloc, fragment and
query, then (for the params-using schemes) the `;params` suffix. -/
def urlparsePath (url : String) : String :=
  let sr := splitScheme url.data
  let rest := stripNetloc sr.2
  let rest := rest.takeWhile (fun c => c != '#')
  let rest := rest.takeWhile (fun c => c != '?')
  if sr.1 ∈ uses_params ∧ rest.contains ';' then ⟨splitParamsPath rest⟩ else ⟨rest⟩

/-! ### `BackpackAuth` -/

/-- The two path prefixes imported from `backpack_constants`
(`API_PREFIX_V1`, `W_API_PREFIX_V1`).  That module is not part of the
sampled source, so they are kept as parameters: every theorem below holds
for all values. -/
structure Consts where
  api_prefix_v1 : String
  w_api_prefix_v1 : String
deriving DecidableEq, Repr

/-- The `instruction_mapping` dict literal of
`BackpackAuth._get_instruction`, in source order. -/
def instruction_mapping (c : Consts) : List ((RESTMethod × String) × String) :=
  [((.GET, c.api_prefix_v1 ++ "/capital"), "balanceQuery"),
   ((.GET, c.w_api_prefix_v1 ++ "/capital/deposit/address"), "depositAddressQuery"),
   ((.GET, c.w_api_prefix_v1 ++ "/capital/deposits"), "depositQueryAll"),
   ((.GET, c.w_api_prefix_v1 ++ "/history/fills"), "fillHistoryQueryAll"),
   ((.DELETE, c.api_prefix_v1 ++ "/order"), "orderCancel"),
   ((.DELETE, c.api_prefix_v1 ++ "/orders"), "orderCancelAll"),
   ((.POST, c.api_prefix_v1 ++ "/order"), "orderExecute"),
   ((.GET, c.w_api_prefix_v1 ++ "/history/orders"), "orderHistoryQueryAll"),
   ((.GET, c.api_prefix_v1 ++ "/order"), "orderQuery"),
   ((.GET, c.api_prefix_v1 ++ "/orders"), "orderQueryAll"),
   ((.POST, c.w_api_prefix_v1 ++ "/capital/withdrawals"), "withdraw"),
   ((.GET, c.w_api_prefix_v1 ++ "/capital/withdrawals"), "orderTest")]

/-- First match in an association list of `(method, path)` keys. -/
def lookupPair (k : RESTMethod × String) :
    List ((RESTMethod × String) × String) → Option String
  | [] => none
  | p :: r => if p.1 = k then some p.2 else lookupPair k r

/-- `BackpackAuth._get_instruction`: `instruction_mapping.get((method,
urlparse(url).path), "")`.  A Python dict literal keeps the last entry on a
key collision, hence the lookup over the reversed list. -/
def get_instruction (c : Consts) (request : RESTRequest) : String :=
  (lookupPair (request.method, urlparsePath request.url)
    (instruction_mapping c).reverse).getD ""

/-- Python's `str` comparison: lexicographic on code points. -/
def charListLe : List Char → List Char → Bool
  | [], _ => true
  | _ :: _, [] => false
  | a :: as, b :: bs => if a < b then true else if b < a then false else charListLe as bs

/-- Sort order used by `sorted(params.items(), key=lambda x: x[0])`:
Python compares the string keys code point by code point. -/
def paramKeyLE (a b : String × PV) : Prop :=
  charListLe a.1.data b.1.data = true

instance : DecidableRel paramKeyLE := fun _ _ =>
  inferInstanceAs (Decidable (_ = true))

theorem charListLe_total : ∀ a b, charListLe a b = true ∨ charListLe b a = true := by
  intro a
  induction a with
  | nil => exact fun _ => Or.inl rfl
  | cons x as ih =>
    intro b
    cases b with
    | nil => exact Or.inr rfl
    | cons y bs =>
      rcases lt_trichotomy x y with h | h | h
      · left
        simp [charListLe, h]
      · subst h
        rcases ih bs with h2 | h2
        · left
          simp [charListLe, lt_irrefl, h2]
        · right
          simp [charListLe, lt_irrefl, h2]
      · right
        simp [charListLe, h]

theorem charListLe_trans :
    ∀ a b c, charListLe a b = true → charListLe b c = true →
      charListLe a c = true := by
  intro a
  induction a with
  | nil => intros; rfl
  | cons x as ih =>
    intro b c hab hbc
    cases b with
    | nil => simp [charListLe] at hab
    | cons y bs =>
      cases c with
      | nil => simp [charListLe] at hbc
      | cons z cs =>
        by_cases hxy : x < y
        · by_cases hyz : y < z
          · simp [charListLe, lt_trans hxy hyz]
          · by_cases hzy : z < y
            · simp [charListLe, hzy, lt_asymm hzy] at hbc
            · have he : y = z := le_antisymm (not_lt.mp hzy) (not_lt.mp hyz)
              subst he
              simp [charListLe, hxy]
        · by_cases hyx : y < x
          · simp [charListLe, hxy, hyx] at hab
          · have he : x = y := le_antisymm (not_lt.mp hyx) (not_lt.mp hxy)
            subst he
            simp only [charListLe, if_neg hxy, if_neg hyx] at hab
            by_cases hxz : x < z
            · simp [charListLe, hxz]
            · by_cases hzx : z < x
              · simp [charListLe, hxz, hzx] at hbc
              · have he2 : x = z := le_antisymm (not_lt.mp hzx) (not_lt.mp hxz)
                subst he2
                simp only [charListLe, if_neg hxz, if_neg hzx] at hbc ⊢
                exact ih bs cs hab hbc

theorem charListLe_antisymm :
    ∀ a b, charListLe a b = true → charListLe b a = true → a = b := by
  intro a
  induction a with
  | nil =>
    intro b _ hba
    cases b with
    | nil => rfl
    | cons y bs => simp [charListLe] at hba
  | cons x as ih =>
    intro b hab hba
    cases b with
    | nil => simp [charListLe] at hab
    | cons y bs =>
      by_cases hxy : x < y
      · simp [charListLe, hxy, lt_asymm hxy] at hba
      · by_cases hyx : y < x
        · simp [charListLe, hxy, hyx] at hab
        · have he : x = y := le_antisymm (not_lt.mp hyx) (not_lt.mp hxy)
          subst he
          simp only [charListLe, if_neg hxy] at hab hba
          rw [ih bs hab hba]

instance : IsTotal (String × PV) paramKeyLE :=
  ⟨fun a b => charListLe_total a.1.data b.1.data⟩

instance : IsTrans (String × PV) paramKeyLE :=
  ⟨fun a b c h1 h2 => charListLe_trans a.1.data b.1.data c.1.data h1 h2⟩

/-- `BackpackAuth._get_sorted_params`.  `params = request.params or {}`
aliases the caller's query dict when it is non-empty, so the subsequent
`params.update(body)` mutates the request in place; the second component is
the request after that side effect. -/
def get_sorted_params (request : RESTRequest) : Params × RESTRequest :=
  let p := request.params.getD []
  let body := request.data.getD []
  let merged := dictUpdate p body
  let request1 := if p.isEmpty then request else { request with params := some merged }
  (List.insertionSort paramKeyLE merged, request1)

/-- The window of `BackpackAuth._sign_payload`:
`request.headers.get("X-Window", 5000) if type(request.headers) is dict
else 5000`. -/
def windowOf (request : RESTRequest) : PV :=
  match request.headers with
  | some h => (lookupKey "X-Window" h).getD (PV.i 5000)
  | none => PV.i 5000

/-- Message construction of `BackpackAuth._sign_payload` (lines 64-68),
in the source's build order. -/
def composeMessage (instruction : String) (params : Params) (timestamp : Int)
    (window : PV) : String :=
  let m := "timestamp=" ++ toString timestamp ++ "&window=" ++ window.render
  let m := if params.isEmpty then m else urlencode params ++ "&" ++ m
  if instruction.isEmpty then m else "instruction=" ++ instruction ++ "&" ++ m

/-- The credential state of `BackpackAuth` after `__init__`: the API key and
the decoded 32-byte Ed25519 seed. -/
structure BackpackAuth where
  api_key : String
  secret_seed : List Nat
deriving DecidableEq, Repr

/-- `BackpackAuth.__init__`:
`ed25519.Ed25519PrivateKey.from_private_bytes(base64.b64decode(secret_key))`.
`b64decode` raises on malformed input and `from_private_bytes` raises unless
it receives exactly 32 bytes; both are modelled as `none`. -/
def mkBackpackAuth (api_key secret_key : String) : Option BackpackAuth :=
  match b64decode secret_key with
  | none => none
  | some bs => if bs.length = 32 then some ⟨api_key, bs⟩ else none

/-- Result of `BackpackAuth._sign_payload`: the returned tuple
`(signature, timestamp, window)` plus the request as mutated by
`_get_sorted_params`. -/
structure SignResult where
  signature : String
  timestamp : Int
  window : PV
  request : RESTRequest
deriving DecidableEq, Repr

/-- `BackpackAuth._sign_payload`.  `timestamp = int(self.time_provider.time()
* 1e3)` is the single time reading, modelled as `timeSource idx`. -/
def sign_payload (c : Consts) (auth : BackpackAuth) (timeSource : Nat → Int)
    (idx : Nat) (request : RESTRequest) : SignResult :=
  let instruction := get_instruction c request
  let sp := get_sorted_params request
  let timestamp := timeSource idx
  let window := windowOf request
  let message := composeMessage instruction sp.1 timestamp window
  { signature := b64encodeStr (ed25519_sign auth.secret_seed (utf8Encode message)),
    timestamp := timestamp, window := window, request := sp.2 }

/-- The header dict built by `BackpackAuth._get_auth_headers` from the
`_sign_payload` result (the call to `_sign_payload` is factored out so the
mutated request can be threaded). -/
def get_auth_headers (auth : BackpackAuth) (res : SignResult) : Params :=
  [("X-Timestamp", PV.s (toString res.timestamp)),
   ("X-Window", PV.s res.window.render),
   ("X-API-Key", PV.s auth.api_key),
   ("X-Signature", PV.s res.signature)]

/-- `BackpackAuth.rest_authenticate`: `headers = {}`, merge the caller's
headers, merge the auth headers, store back into the request and return
it. -/
def rest_authenticate (c : Consts) (auth : BackpackAuth) (timeSource : Nat → Int)
    (idx : Nat) (request : RESTRequest) : RESTRequest :=
  let res := sign_payload c auth timeSource idx request
  { res.request with
    headers := some (dictUpdate (request.headers.getD []) (get_auth_headers auth res)) }

/-! ### `backpack_utils.is_symbol_information_valid` -/

/-- Arbitrary Python values, rich enough for the exchange-information dicts
fed to `is_symbol_information_valid` (strings, lists of permission sets,
nested dicts, ...). -/
inductive PyVal where
  | str (s : String)
  | int (n : Int)
  | boolean (b : Bool)
  | pylist (l : List PyVal)
  | pydict (l : List (String × PyVal))
  | pynone

/-- `backpack_utils.is_symbol_information_valid`: the status/permission
checks are commented out in the source; the body is `return True` for every
`symbol_info` dict. -/
def is_symbol_information_valid (_symbol_info : List (String × PyVal)) : Bool :=
  true

/-! ### Association-list lemmas -/

theorem hasKey_iff_mem {k : String} {l : Params} :
    hasKey k l = true ↔ k ∈ l.map Prod.fst := by
  simp only [hasKey, List.any_eq_true, beq_iff_eq, List.mem_map]

theorem lookupKey_eq_none {k : String} {l : Params} (h : hasKey k l = false) :
    lookupKey k l = none := by
  induction l with
  | nil => rfl
  | cons p r ih =>
    simp only [hasKey, List.any_cons, Bool.or_eq_false_iff, beq_eq_false_iff_ne] at h
    simp only [lookupKey, if_neg h.1, ih (by simp [hasKey, h.2])]

theorem lookup_mapset_self {k : String} (v : PV) {l : Params} (h : hasKey k l = true) :
    lookupKey k (l.map (fun p => if p.1 = k then (k, v) else p)) = some v := by
  induction l with
  | nil => simp [hasKey] at h
  | cons p r ih =>
    by_cases hp : p.1 = k
    · simp [lookupKey, hp]
    · have h' : hasKey k r = true := by
        simp only [hasKey, List.any_cons, Bool.or_eq_true, beq_iff_eq] at h ⊢
        exact h.resolve_left hp
      simp [lookupKey, hp, ih h']

theorem lookup_mapset_other {k k' : String} (hne : k' ≠ k) (v : PV) (l : Params) :
    lookupKey k' (l.map (fun p => if p.1 = k then (k, v) else p)) = lookupKey k' l := by
  induction l with
  | nil => rfl
  | cons p r ih =>
    by_cases hp : p.1 = k
    · simp [lookupKey, hp, Ne.symm hne, ih]
    · by_cases hp' : p.1 = k' <;> simp [lookupKey, hp, hp', hne, ih]

theorem lookup_append_single_other {k k' : String} (hne : k' ≠ k) (v : PV) (l : Params) :
    lookupKey k' (l ++ [(k, v)]) = lookupKey k' l := by
  induction l with
  | nil => simp [lookupKey, Ne.symm hne]
  | cons p r ih => by_cases hp : p.1 = k' <;> simp [lookupKey, hp, ih]

theorem lookupKey_setKey_self (k : String) (v : PV) (l : Params) :
    lookupKey k (setKey l k v) = some v := by
  unfold setKey
  by_cases h : hasKey k l
  · rw [if_pos h]
    exact lookup_mapset_self v h
  · rw [if_neg h]
    have h' := eq_false_of_ne_true h
    induction l with
    | nil => simp [lookupKey]
    | cons p r ih =>
      simp only [hasKey, List.any_cons, Bool.or_eq_false_iff, beq_eq_false_iff_ne] at h'
      simp only [List.cons_append, lookupKey, if_neg h'.1]
      exact ih (by simp [hasKey, h'.2]) (by simp [hasKey, h'.2])

theorem lookupKey_setKey_other {k k' : String} (hne : k' ≠ k) (v : PV) (l : Params) :
    lookupKey k' (setKey l k v) = lookupKey k' l := by
  unfold setKey
  split
  · exact lookup_mapset_other hne v l
  · exact lookup_append_single_other hne v l

theorem map_fst_mapset (k : String) (v : PV) (l : Params) :
    (l.map (fun p => if p.1 = k then (k, v) else p)).map Prod.fst = l.map Prod.fst := by
  induction l with
  | nil => rfl
  | cons p r ih => by_cases hp : p.1 = k <;> simp [hp, ih]

theorem map_fst_setKey (k : String) (v : PV) (l : Params) :
    (setKey l k v).map Prod.fst =
      if hasKey k l then l.map Prod.fst else l.map Prod.fst ++ [k] := by
  unfold setKey
  split
  · exact map_fst_mapset k v l
  · simp

theorem hasKey_setKey_iff {k k' : String} {v : PV} {l : Params} :
    hasKey k' (setKey l k v) = true ↔ (hasKey k' l = true ∨ k' = k) := by
  rw [hasKey_iff_mem, map_fst_setKey]
  by_cases h2 : hasKey k l
  · rw [if_pos h2, ← hasKey_iff_mem]
    constructor
    · exact Or.inl
    · rintro (h | rfl)
      · exact h
      · exact h2
  · rw [if_neg h2, List.mem_append, List.mem_singleton, ← hasKey_iff_mem]

theorem keysNodup_setKey {l : Params} (k : String) (v : PV) (hn : keysNodup l) :
    keysNodup (setKey l k v) := by
  unfold keysNodup
  rw [map_fst_setKey]
  split
  · exact hn
  · next h =>
    have hmem : k ∉ l.map Prod.fst := fun hc => h (hasKey_iff_mem.mpr hc)
    have hn' : (l.map Prod.fst).Nodup := hn
    simp [List.nodup_append, hn', hmem]

theorem lookupKey_dictUpdate {other : Params} (hno : keysNodup other) (k : String)
    (l : Params) :
    lookupKey k (dictUpdate l other) =
      (match lookupKey k other with | some v => some v | none => lookupKey k l) := by
  induction other generalizing l with
  | nil => rfl
  | cons q rest ih =>
    have hq : keysNodup rest := by
      unfold keysNodup at hno ⊢
      exact (List.nodup_cons.mp hno).2
    have hnotin : q.1 ∉ rest.map Prod.fst := (List.nodup_cons.mp hno).1
    show lookupKey k (dictUpdate (setKey l q.1 q.2) rest) = _
    rw [ih hq]
    by_cases hk : q.1 = k
    · subst hk
      have : lookupKey q.1 rest = none :=
        lookupKey_eq_none (by rw [← Bool.not_eq_true, hasKey_iff_mem]; exact hnotin)
      simp [lookupKey, this, lookupKey_setKey_self]
    · have hlk : lookupKey k (q :: rest) = lookupKey k rest := by
        simp [lookupKey, hk]
      rw [hlk]
      cases hr : lookupKey k rest with
      | some v => simp
      | none => simp [lookupKey_setKey_other (Ne.symm hk)]

theorem hasKey_dictUpdate_iff {k : String} {l other : Params} :
    hasKey k (dictUpdate l other) = true ↔
      (hasKey k l = true ∨ hasKey k other = true) := by
  induction other generalizing l with
  | nil => simp [dictUpdate, hasKey]
  | cons q rest ih =>
    show hasKey k (dictUpdate (setKey l q.1 q.2) rest) = true ↔ _
    rw [ih, hasKey_setKey_iff]
    constructor
    · rintro ((h | h) | h)
      · exact Or.inl h
      · exact Or.inr (by simp [hasKey, List.any_cons, h])
      · refine Or.inr ?_
        simp only [hasKey, List.any_cons, Bool.or_eq_true]
        exact Or.inr h
    · rintro (h | h)
      · exact Or.inl (Or.inl h)
      · simp only [hasKey, List.any_cons, Bool.or_eq_true, beq_iff_eq] at h
        rcases h with h | h
        · exact Or.inl (Or.inr h.symm)
        · exact Or.inr h

theorem keysNodup_dictUpdate {l : Params} (other : Params) (hn : keysNodup l) :
    keysNodup (dictUpdate l other) := by
  induction other generalizing l with
  | nil => exact hn
  | cons q rest ih =>
    show keysNodup (dictUpdate (setKey l q.1 q.2) rest)
    exact ih (keysNodup_setKey q.1 q.2 hn)

/-! ### Permutation lemmas for dict-shaped lists -/

theorem keysNodup_perm {l1 l2 : Params} (h : l1.Perm l2) (hn : keysNodup l1) :
    keysNodup l2 :=
  ((h.map Prod.fst).nodup_iff).mp hn

theorem lookupKey_perm {l1 l2 : Params} (h : l1.Perm l2) (hn : keysNodup l1)
    (k : String) : lookupKey k l1 = lookupKey k l2 := by
  induction h with
  | nil => rfl
  | cons x h ih =>
    have hn' : keysNodup _ := ((List.nodup_cons.mp hn).2 : _)
    by_cases hx : x.1 = k
    · simp [lookupKey, hx]
    · simp [lookupKey, hx, ih hn']
  | swap x y l =>
    have hne : y.1 ≠ x.1 := by
      have := (List.nodup_cons.mp hn).1
      simp only [List.map_cons, List.mem_cons] at this
      exact fun he => this (Or.inl he)
    by_cases hy : y.1 = k
    · have hx : x.1 ≠ k := fun he => hne (hy.trans he.symm)
      simp [lookupKey, hy, hx]
    · by_cases hx : x.1 = k <;> simp [lookupKey, hx, hy]
  | trans h1 h2 ih1 ih2 =>
    rw [ih1 hn, ih2 (keysNodup_perm h1 hn)]

theorem mem_of_lookupKey_eq_some {k : String} {v : PV} {l : Params}
    (h : lookupKey k l = some v) : (k, v) ∈ l := by
  induction l with
  | nil => simp [lookupKey] at h
  | cons p r ih =>
    by_cases hp : p.1 = k
    · simp only [lookupKey, if_pos hp, Option.some.injEq] at h
      subst hp
      subst h
      exact List.mem_cons_self _ _
    · simp only [lookupKey, if_neg hp] at h
      exact List.mem_cons_of_mem p (ih h)

theorem lookupKey_eq_some_of_mem {k : String} {v : PV} {l : Params}
    (hn : keysNodup l) (h : (k, v) ∈ l) : lookupKey k l = some v := by
  induction l with
  | nil => simp at h
  | cons p r ih =>
    rcases List.mem_cons.mp h with h | h
    · simp [lookupKey, ← h]
    · have hp : p.1 ≠ k := by
        intro he
        have hk : k ∈ r.map Prod.fst := List.mem_map.mpr ⟨(k, v), h, rfl⟩
        exact (List.nodup_cons.mp hn).1 (he ▸ hk)
      have hn' : keysNodup r := ((List.nodup_cons.mp hn).2 : _)
      simp [lookupKey, hp, ih hn' h]

theorem perm_of_lookupKey_eq {l1 l2 : Params} (hn1 : keysNodup l1)
    (hn2 : keysNodup l2) (h : ∀ k, lookupKey k l1 = lookupKey k l2) :
    l1.Perm l2 := by
  induction l1 generalizing l2 with
  | nil =>
    cases l2 with
    | nil => exact List.Perm.refl _
    | cons p r =>
      have := h p.1
      simp [lookupKey] at this
  | cons x t ih =>
    have hx : lookupKey x.1 l2 = some x.2 := by
      rw [← h x.1]
      simp [lookupKey]
    have hmem : x ∈ l2 := by
      have := mem_of_lookupKey_eq_some hx
      rwa [Prod.mk.eta] at this
    obtain ⟨rest2, hperm2⟩ : ∃ r2, l2.Perm (x :: r2) := ⟨_, List.perm_cons_erase hmem⟩
    have hn2' : keysNodup (x :: rest2) := keysNodup_perm hperm2 hn2
    have hnt : keysNodup t := ((List.nodup_cons.mp hn1).2 : _)
    have hne : keysNodup rest2 := ((List.nodup_cons.mp hn2').2 : _)
    have hxt : x.1 ∉ t.map Prod.fst := (List.nodup_cons.mp hn1).1
    have hxe : x.1 ∉ rest2.map Prod.fst := (List.nodup_cons.mp hn2').1
    have htail : ∀ k, lookupKey k t = lookupKey k rest2 := by
      intro k
      by_cases hk : x.1 = k
      · subst hk
        rw [lookupKey_eq_none (by rw [← Bool.not_eq_true, hasKey_iff_mem]; exact hxt),
            lookupKey_eq_none (by rw [← Bool.not_eq_true, hasKey_iff_mem]; exact hxe)]
      · have h1 := h k
        rw [lookupKey_perm hperm2 hn2 k] at h1
        simpa [lookupKey, hk] using h1
    exact ((ih hnt hne htail).cons x).trans hperm2.symm

/-! ### Sortedness of the canonical parameter list -/

/-- Strict key order on parameter pairs. -/
def paramKeyLT (a b : String × PV) : Prop :=
  paramKeyLE a b ∧ a.1 ≠ b.1

instance : IsAntisymm (String × PV) paramKeyLT :=
  ⟨fun a b h1 h2 =>
    absurd (String.ext (charListLe_antisymm a.1.data b.1.data h1.1 h2.1)) h1.2⟩

theorem sorted_keys_of_nodup {l : Params} (hn : keysNodup l) :
    (List.insertionSort paramKeyLE l).Pairwise paramKeyLT := by
  have hsorted : (List.insertionSort paramKeyLE l).Pairwise paramKeyLE :=
    List.sorted_insertionSort paramKeyLE l
  have hperm : (List.insertionSort paramKeyLE l).Perm l :=
    List.perm_insertionSort paramKeyLE l
  have hn' : keysNodup (List.insertionSort paramKeyLE l) :=
    keysNodup_perm hperm.symm hn
  have hne : (List.insertionSort paramKeyLE l).Pairwise (fun a b => a.1 ≠ b.1) :=
    List.pairwise_map.mp hn'
  exact hsorted.and hne

/-! ### Base64 round trip (for credential construction) -/

theorem b64CharVal_b64Char : ∀ v, v < 64 → b64CharVal (b64Char v) = some v := by
  decide

theorem b64Char_ne_pad : ∀ v, v < 64 → b64Char v ≠ '=' := by
  decide

theorem a2b_quad {a b c : Nat} (ha : a < 256) (hb : b < 256) (hc : c < 256)
    (rest : List Char) (out : List Nat) (lc p : Nat) :
    a2bBase64 (b64Char (a / 4) :: b64Char (a % 4 * 16 + b / 16) ::
        b64Char (b % 16 * 4 + c / 64) :: b64Char (c % 64) :: rest) ⟨out, 0, lc, p⟩ =
      a2bBase64 rest ⟨c :: b :: a :: out, 0, 0, 0⟩ := by
  have n1 := b64Char_ne_pad (a / 4) (by omega)
  have n2 := b64Char_ne_pad (a % 4 * 16 + b / 16) (by omega)
  have n3 := b64Char_ne_pad (b % 16 * 4 + c / 64) (by omega)
  have n4 := b64Char_ne_pad (c % 64) (by omega)
  have e1 := b64CharVal_b64Char (a / 4) (by omega)
  have e2 := b64CharVal_b64Char (a % 4 * 16 + b / 16) (by omega)
  have e3 := b64CharVal_b64Char (b % 16 * 4 + c / 64) (by omega)
  have e4 := b64CharVal_b64Char (c % 64) (by omega)
  simp only [a2bBase64, if_neg n1, if_neg n2, if_neg n3, if_neg n4, e1, e2, e3, e4]
  have ea : a / 4 * 4 + (a % 4 * 16 + b / 16) / 16 = a := by omega
  have elc : (a % 4 * 16 + b / 16) % 16 = b / 16 := by omega
  have eb : b / 16 * 16 + (b % 16 * 4 + c / 64) / 4 = b := by omega
  have elc2 : (b % 16 * 4 + c / 64) % 4 = c / 64 := by omega
  have ec : c / 64 * 64 + c % 64 = c := by omega
  rw [elc, elc2, ea, eb, ec]

theorem a2b_encode (bs : List Nat) (hb : ∀ x ∈ bs, x < 256) (out0 : List Nat)
    (p0 : Nat) (lc0 : Nat) :
    a2bBase64 (b64encodeList bs) ⟨out0, 0, lc0, p0⟩ = some (out0.reverse ++ bs) := by
  induction bs using b64encodeList.induct generalizing out0 p0 lc0 with
  | case4 =>
    simp [b64encodeList, a2bBase64]
  | case3 a =>
    have ha : a < 256 := hb a (by simp)
    have n1 := b64Char_ne_pad (a / 4) (by omega)
    have n2 := b64Char_ne_pad (a % 4 * 16) (by omega)
    have e1 := b64CharVal_b64Char (a / 4) (by omega)
    have e2 := b64CharVal_b64Char (a % 4 * 16) (by omega)
    simp only [b64encodeList, a2bBase64, if_neg n1, if_neg n2, e1, e2]
    have ea : a / 4 * 4 + a % 4 * 16 / 16 = a := by omega
    rw [ea]
    simp
  | case2 a b =>
    have ha : a < 256 := hb a (by simp)
    have hbb : b < 256 := hb b (by simp)
    have n1 := b64Char_ne_pad (a / 4) (by omega)
    have n2 := b64Char_ne_pad (a % 4 * 16 + b / 16) (by omega)
    have n3 := b64Char_ne_pad (b % 16 * 4) (by omega)
    have e1 := b64CharVal_b64Char (a / 4) (by omega)
    have e2 := b64CharVal_b64Char (a % 4 * 16 + b / 16) (by omega)
    have e3 := b64CharVal_b64Char (b % 16 * 4) (by omega)
    simp only [b64encodeList, a2bBase64, if_neg n1, if_neg n2, if_neg n3, e1, e2, e3]
    have ea : a / 4 * 4 + (a % 4 * 16 + b / 16) / 16 = a := by omega
    have elc : (a % 4 * 16 + b / 16) % 16 = b / 16 := by omega
    have eb : b / 16 * 16 + b % 16 * 4 / 4 = b := by omega
    rw [elc, ea, eb]
    simp
  | case1 a b c rest ih =>
    have ha : a < 256 := hb a (by simp)
    have hbb : b < 256 := hb b (by simp)
    have hcc : c < 256 := hb c (by simp)
    have hrest : ∀ x ∈ rest, x < 256 := fun x hx => hb x (by simp [hx])
    rw [b64encodeList, a2b_quad ha hbb hcc]
    rw [ih hrest]
    simp

theorem b64Char_toNat_lt_128 : ∀ v, (b64Char v).toNat < 128 := by
  intro v
  by_cases h : v < 64
  · revert h
    revert v
    decide
  · have : ("ABCDEFGHIJKLMNOPQRSTUVWXYZabcdefghijklmnopqrstuvwxyz0123456789+/".data).length = 64 := by
      decide
    unfold b64Char
    rw [List.getD_eq_default _ _ (by omega)]
    decide

theorem b64encode_all_ascii (bs : List Nat) :
    (b64encodeList bs).all (fun c => c.toNat < 128) = true := by
  induction bs using b64encodeList.induct with
  | case4 => rfl
  | case3 a =>
    simp [b64encodeList, List.all_cons, b64Char_toNat_lt_128]
  | case2 a b =>
    simp [b64encodeList, List.all_cons, b64Char_toNat_lt_128]
  | case1 a b c rest ih =>
    simp [b64encodeList, List.all_cons, b64Char_toNat_lt_128, ih]

theorem b64decode_b64encode (bs : List Nat) (hb : ∀ x ∈ bs, x < 256) :
    b64decode (b64encodeStr bs) = some bs := by
  show (if (b64encodeList bs).all (fun c => c.toNat < 128) then
      a2bBase64 (b64encodeList bs) ⟨[], 0, 0, 0⟩ else none) = some bs
  rw [if_pos (b64encode_all_ascii bs), a2b_encode bs hb [] 0 0]
  simp

/-- Two key-nodup merge results that agree as finite maps sort to the same
canonical list. -/
theorem canonical_eq {m1 m2 : Params} (hn1 : keysNodup m1) (hn2 : keysNodup m2)
    (h : m1.Perm m2) :
    List.insertionSort paramKeyLE m1 = List.insertionSort paramKeyLE m2 :=
  List.eq_of_perm_of_sorted (r := paramKeyLT)
    ((List.perm_insertionSort _ m1).trans (h.trans (List.perm_insertionSort _ m2).symm))
    (sorted_keys_of_nodup hn1) (sorted_keys_of_nodup hn2)

/-- The message equals the spec's concatenation form. -/
theorem composeMessage_eq (instruction : String) (params : Params) (ts : Int)
    (w : PV) :
    composeMessage instruction params ts w =
      (if instruction = "" then "" else "instruction=" ++ instruction ++ "&") ++
        ((if params = [] then "" else urlencode params ++ "&") ++
          ("timestamp=" ++ toString ts ++ "&window=" ++ w.render)) := by
  unfold composeMessage
  by_cases hi : instruction = "" <;> by_cases hp : params = [] <;>
    simp [hi, hp, String.isEmpty_iff, String.append_assoc]

theorem lookupPair_eq_none {k : RESTMethod × String}
    {l : List ((RESTMethod × String) × String)} (h : ∀ p ∈ l, p.1 ≠ k) :
    lookupPair k l = none := by
  induction l with
  | nil => rfl
  | cons p r ih =>
    simp only [lookupPair, if_neg (h p (List.mem_cons_self p r))]
    exact ih fun q hq => h q (List.mem_cons_of_mem p hq)

/-! ### Claims -/

/-- C1: the claim (and the repository's own test `test_rest_authenticate`)
require that signing with secret `"testSecret"` composes the message
`price=0.1&...&window=5000` and emits the hex HMAC-SHA256 digest of it keyed
by `"testSecret"`.  The code composes that exact message, but it signs with
Ed25519 over a base64-decoded 32-byte seed: constructing `BackpackAuth` with
secret `"testSecret"` already raises (`b64decode` fails on the 10-character
non-base64 input), so no signature is produced at all — the code contradicts
its own test. -/
theorem C1_code_contradicts_test :
    mkBackpackAuth "testApiKey" "testSecret" = none ∧
    composeMessage ""
        (get_sorted_params
          ⟨.GET, "", some [("price", .s "0.1"), ("quantity", .i 1), ("side", .s "BUY"),
            ("symbol", .s "LTCBTC"), ("timeInForce", .s "GTC"), ("type", .s "LIMIT")],
            none, none⟩).1
        1234567890000 (PV.i 5000) =
      "price=0.1&quantity=1&side=BUY&symbol=LTCBTC&timeInForce=GTC&type=LIMIT&timestamp=1234567890000&window=5000" := by
  constructor
  · rfl
  · rfl

/-- C2: for every instruction tag, parameter mapping, timestamp and window,
the composed message is the concatenation of the optional
`instruction=<tag>&` clause, the optional `urlencode(params)&` clause and
the final `timestamp=<ts>&window=<w>` clause; in particular it always ends
with the timestamp/window clause. -/
theorem C2_message_concatenation (instruction : String) (params : Params)
    (ts : Int) (w : PV) :
    composeMessage instruction params ts w =
      (if instruction = "" then "" else "instruction=" ++ instruction ++ "&") ++
        ((if params = [] then "" else urlencode params ++ "&") ++
          ("timestamp=" ++ toString ts ++ "&window=" ++ w.render)) ∧
    ∃ pre, composeMessage instruction params ts w =
      pre ++ ("timestamp=" ++ toString ts ++ "&window=" ++ w.render) := by
  refine ⟨composeMessage_eq instruction params ts w,
    (if instruction = "" then "" else "instruction=" ++ instruction ++ "&") ++
      (if params = [] then "" else urlencode params ++ "&"), ?_⟩
  rw [composeMessage_eq, ← String.append_assoc]

/-- C4: `BackpackAuth` construction succeeds exactly when the secret decodes
(under Python's `b64decode`) to exactly 32 bytes — otherwise it fails at
construction time, before any signing; and every base64 encoding of a
32-byte seed is accepted, yielding those seed bytes. -/
theorem C4_construction_fails_fast (api_key s : String) (bs : List Nat)
    (hlen : bs.length = 32) (hbytes : ∀ x ∈ bs, x < 256) :
    ((mkBackpackAuth api_key s).isSome = true ↔
      ∃ bs', b64decode s = some bs' ∧ bs'.length = 32) ∧
    mkBackpackAuth api_key (b64encodeStr bs) = some ⟨api_key, bs⟩ := by
  constructor
  · unfold mkBackpackAuth
    cases hd : b64decode s with
    | none => simp
    | some bs' =>
      by_cases h32 : bs'.length = 32 <;> simp [h32]
  · unfold mkBackpackAuth
    rw [b64decode_b64encode bs hbytes]
    simp [hlen]

/-- C4 witness: instantiated at the non-base64 secret `"testSecret"` and at
the all-zero 32-byte seed. -/
theorem C4_witness :
    (List.replicate 32 (0 : Nat)).length = 32 ∧
    (∀ x ∈ List.replicate 32 (0 : Nat), x < 256) ∧
    (((mkBackpackAuth "k" "testSecret").isSome = true ↔
      ∃ bs', b64decode "testSecret" = some bs' ∧ bs'.length = 32) ∧
     mkBackpackAuth "k" (b64encodeStr (List.replicate 32 0)) =
       some ⟨"k", List.replicate 32 0⟩) :=
  ⟨by decide, by decide,
    C4_construction_fails_fast "k" "testSecret" (List.replicate 32 0)
      (by decide) (by decide)⟩

/-- C6: a `(method, path)` pair absent from the instruction table resolves
to the empty instruction tag (no error is modelled anywhere in the lookup),
and the message composed with that tag contains no `instruction=` clause:
it is exactly the optional parameter clause followed by the
timestamp/window clause. -/
theorem C6_unmapped_endpoint (c : Consts) (request : RESTRequest)
    (h : (request.method, urlparsePath request.url) ∉
      (instruction_mapping c).map Prod.fst) :
    get_instruction c request = "" ∧
    ∀ (params : Params) (ts : Int) (w : PV),
      composeMessage (get_instruction c request) params ts w =
        (if params = [] then "" else urlencode params ++ "&") ++
          ("timestamp=" ++ toString ts ++ "&window=" ++ w.render) := by
  have hnone : lookupPair (request.method, urlparsePath request.url)
      (instruction_mapping c).reverse = none := by
    apply lookupPair_eq_none
    intro p hp he
    exact h (he ▸ List.mem_map.mpr ⟨p, List.mem_reverse.mp hp, rfl⟩)
  have hinstr : get_instruction c request = "" := by
    unfold get_instruction
    rw [hnone]
    rfl
  refine ⟨hinstr, fun params ts w => ?_⟩
  rw [hinstr, composeMessage_eq]
  simp

/-- C6 witness: a GET to a path under neither table prefix. -/
theorem C6_witness :
    ((RESTMethod.GET, urlparsePath "https://example.com/api/v1/other") ∉
      (instruction_mapping ⟨"/api/v1", "/wapi/v1"⟩).map Prod.fst) ∧
    get_instruction ⟨"/api/v1", "/wapi/v1"⟩
      ⟨.GET, "https://example.com/api/v1/other", none, none, none⟩ = "" :=
  ⟨by decide,
    (C6_unmapped_endpoint ⟨"/api/v1", "/wapi/v1"⟩
      ⟨.GET, "https://example.com/api/v1/other", none, none, none⟩ (by decide)).1⟩

/-- C10: `is_symbol_information_valid` returns `True` for every input
dictionary — all status/permission filtering is commented out in the
source, so the value of `status` and the contents of `permissionSets` are
irrelevant. -/
theorem C10_always_valid (symbol_info : List (String × PyVal)) :
    is_symbol_information_valid symbol_info = true :=
  rfl

/-! ### Header-merge helper lemmas -/

theorem rest_authenticate_headers (c : Consts) (auth : BackpackAuth)
    (src : Nat → Int) (idx : Nat) (request : RESTRequest) :
    (rest_authenticate c auth src idx request).headers =
      some (dictUpdate (request.headers.getD [])
        (get_auth_headers auth (sign_payload c auth src idx request))) :=
  rfl

theorem lookup_auth_headers_self (base : Params) (auth : BackpackAuth)
    (res : SignResult) :
    lookupKey "X-Timestamp" (dictUpdate base (get_auth_headers auth res)) =
        some (.s (toString res.timestamp)) ∧
    lookupKey "X-Window" (dictUpdate base (get_auth_headers auth res)) =
        some (.s res.window.render) ∧
    lookupKey "X-API-Key" (dictUpdate base (get_auth_headers auth res)) =
        some (.s auth.api_key) ∧
    lookupKey "X-Signature" (dictUpdate base (get_auth_headers auth res)) =
        some (.s res.signature) := by
  show lookupKey _ (setKey (setKey (setKey (setKey base "X-Timestamp" _)
      "X-Window" _) "X-API-Key" _) "X-Signature" _) = _ ∧ _ ∧ _ ∧ _
  refine ⟨?_, ?_, ?_, ?_⟩
  · rw [lookupKey_setKey_other (by decide), lookupKey_setKey_other (by decide),
      lookupKey_setKey_other (by decide), lookupKey_setKey_self]
  · show lookupKey _ (setKey (setKey (setKey (setKey base "X-Timestamp" _)
      "X-Window" _) "X-API-Key" _) "X-Signature" _) = _
    rw [lookupKey_setKey_other (by decide), lookupKey_setKey_other (by decide),
      lookupKey_setKey_self]
  · show lookupKey _ (setKey (setKey (setKey (setKey base "X-Timestamp" _)
      "X-Window" _) "X-API-Key" _) "X-Signature" _) = _
    rw [lookupKey_setKey_other (by decide), lookupKey_setKey_self]
  · show lookupKey _ (setKey (setKey (setKey (setKey base "X-Timestamp" _)
      "X-Window" _) "X-API-Key" _) "X-Signature" _) = _
    rw [lookupKey_setKey_self]

theorem lookup_auth_headers_other (base : Params) (auth : BackpackAuth)
    (res : SignResult) (k : String)
    (hk : k ∉ (["X-Timestamp", "X-Window", "X-API-Key", "X-Signature"] : List String)) :
    lookupKey k (dictUpdate base (get_auth_headers auth res)) = lookupKey k base := by
  simp only [List.mem_cons, List.not_mem_nil, or_false, not_or] at hk
  show lookupKey _ (setKey (setKey (setKey (setKey base "X-Timestamp" _)
      "X-Window" _) "X-API-Key" _) "X-Signature" _) = _
  rw [lookupKey_setKey_other hk.2.2.2, lookupKey_setKey_other hk.2.2.1,
    lookupKey_setKey_other hk.2.1, lookupKey_setKey_other hk.1]

theorem hasKey_auth_headers (base : Params) (auth : BackpackAuth)
    (res : SignResult) (k : String) :
    hasKey k (dictUpdate base (get_auth_headers auth res)) = true ↔
      (hasKey k base = true ∨
        k ∈ (["X-Timestamp", "X-Window", "X-API-Key", "X-Signature"] : List String)) := by
  rw [hasKey_dictUpdate_iff]
  have hiff : hasKey k (get_auth_headers auth res) = true ↔
      k ∈ (["X-Timestamp", "X-Window", "X-API-Key", "X-Signature"] : List String) := by
    simp only [hasKey, get_auth_headers, List.any_cons, List.any_nil,
      Bool.or_eq_true, Bool.false_eq_true, or_false, beq_iff_eq, List.mem_cons,
      List.not_mem_nil]
    constructor
    · rintro (h | h | h | h)
      · exact Or.inl h.symm
      · exact Or.inr (Or.inl h.symm)
      · exact Or.inr (Or.inr (Or.inl h.symm))
      · exact Or.inr (Or.inr (Or.inr h.symm))
    · rintro (h | h | h | h)
      · exact Or.inl h.symm
      · exact Or.inr (Or.inl h.symm)
      · exact Or.inr (Or.inr (Or.inl h.symm))
      · exact Or.inr (Or.inr (Or.inr h.symm))
  rw [hiff]

/-- C3 counterexample: a request carrying both query and body parameters.
`_get_sorted_params` runs `params.update(body)` on the caller's own query
dict (aliased by `params = request.params or {}`), so after signing the
request's `params` field has changed — signing does not mutate only the
headers. -/
theorem C3_counterexample :
    (rest_authenticate ⟨"/api/v1", "/wapi/v1"⟩ ⟨"key", List.replicate 32 0⟩
        (fun _ => 1234567890000) 0
        ⟨.GET, "https://example.com/x", some [("a", .s "1")], some [("b", .s "2")], none⟩).params ≠
      (⟨.GET, "https://example.com/x", some [("a", .s "1")], some [("b", .s "2")],
        none⟩ : RESTRequest).params := by
  decide

/-- C3 amended: signing mutates the headers field and, when the caller's
query mapping is non-empty, also mutates it in place to the body-over-query
merge (`params.update(body)` through the alias); the method, URL and body
mapping are unchanged, and when the query mapping is empty or absent every
field other than headers is unchanged.  Parameter canonicalization itself
never touches the body mapping. -/
theorem C3_frame_amended (c : Consts) (auth : BackpackAuth) (src : Nat → Int)
    (idx : Nat) (request : RESTRequest) :
    (rest_authenticate c auth src idx request).method = request.method ∧
    (rest_authenticate c auth src idx request).url = request.url ∧
    (rest_authenticate c auth src idx request).data = request.data ∧
    (rest_authenticate c auth src idx request).params =
      (match request.params with
       | none => none
       | some l => if l = [] then some []
                   else some (dictUpdate l (request.data.getD []))) := by
  unfold rest_authenticate sign_payload get_sorted_params
  cases hp : request.params with
  | none => simp [hp]
  | some l =>
    by_cases hl : l = [] <;> simp [hp, hl]

/-- C5: the signed request's headers are exactly the caller's headers
(empty when absent) merged with the four auth headers: each of the four
keys maps to the signer's value, every other key looks up to its caller
value, and a key is present in the output iff it was present in the input
or is one of the four. -/
theorem C5_header_merge (c : Consts) (auth : BackpackAuth) (src : Nat → Int)
    (idx : Nat) (request : RESTRequest) :
    ∃ h, (rest_authenticate c auth src idx request).headers = some h ∧
      lookupKey "X-Timestamp" h =
        some (.s (toString (sign_payload c auth src idx request).timestamp)) ∧
      lookupKey "X-Window" h =
        some (.s (sign_payload c auth src idx request).window.render) ∧
      lookupKey "X-API-Key" h = some (.s auth.api_key) ∧
      lookupKey "X-Signature" h =
        some (.s (sign_payload c auth src idx request).signature) ∧
      (∀ k, k ∉ (["X-Timestamp", "X-Window", "X-API-Key", "X-Signature"] : List String) →
        lookupKey k h = lookupKey k (request.headers.getD [])) ∧
      (∀ k, hasKey k h = true ↔
        (hasKey k (request.headers.getD []) = true ∨
          k ∈ (["X-Timestamp", "X-Window", "X-API-Key", "X-Signature"] : List String))) := by
  obtain ⟨hT, hW, hK, hS⟩ := lookup_auth_headers_self (request.headers.getD [])
    auth (sign_payload c auth src idx request)
  exact ⟨_, rest_authenticate_headers c auth src idx request, hT, hW, hK, hS,
    fun k hk => lookup_auth_headers_other _ auth _ k hk,
    fun k => hasKey_auth_headers _ auth _ k⟩

/-- C8: `_sign_payload` reads the time source exactly once — its result
depends only on the single reading at the current index, that reading is
the returned timestamp, the signed message embeds the same reading in its
`timestamp=` clause, and the emitted `X-Timestamp`/`X-Window` headers are
the string forms of the very timestamp and window used in the message. -/
theorem C8_timestamp_once_and_consistent (c : Consts) (auth : BackpackAuth)
    (src1 src2 : Nat → Int) (idx : Nat) (request : RESTRequest)
    (h : src1 idx = src2 idx) :
    (sign_payload c auth src1 idx request).timestamp = src1 idx ∧
    (sign_payload c auth src1 idx request).window = windowOf request ∧
    (sign_payload c auth src1 idx request).signature =
      b64encodeStr (ed25519_sign auth.secret_seed (utf8Encode
        (composeMessage (get_instruction c request) (get_sorted_params request).1
          (src1 idx) (windowOf request)))) ∧
    lookupKey "X-Timestamp"
        ((rest_authenticate c auth src1 idx request).headers.getD []) =
      some (.s (toString (src1 idx))) ∧
    lookupKey "X-Window"
        ((rest_authenticate c auth src1 idx request).headers.getD []) =
      some (.s (windowOf request).render) ∧
    sign_payload c auth src2 idx request = sign_payload c auth src1 idx request := by
  obtain ⟨hT, hW, _, _⟩ := lookup_auth_headers_self (request.headers.getD [])
    auth (sign_payload c auth src1 idx request)
  refine ⟨rfl, rfl, rfl, ?_, ?_, ?_⟩
  · rw [rest_authenticate_headers]
    exact hT
  · rw [rest_authenticate_headers]
    exact hW
  · unfold sign_payload
    rw [h]

/-- C8 witness: two time sources agreeing at index 0. -/
theorem C8_witness :
    ((fun _ => (7 : Int)) 0 = (fun _ => (7 : Int)) 0) ∧
    (sign_payload ⟨"/api/v1", "/wapi/v1"⟩ ⟨"key", List.replicate 32 0⟩
      (fun _ => (7 : Int)) 0 ⟨.GET, "https://example.com/x", none, none, none⟩).timestamp =
      (fun _ => (7 : Int)) 0 :=
  ⟨rfl, (C8_timestamp_once_and_consistent ⟨"/api/v1", "/wapi/v1"⟩
    ⟨"key", List.replicate 32 0⟩ (fun _ => (7 : Int)) (fun _ => (7 : Int)) 0
    ⟨.GET, "https://example.com/x", none, none, none⟩ rfl).1⟩

/-- C9: signature computation is deterministic and depends only on the
message bytes and the provisioned secret.  For the asymmetric variant of
the code, two signing invocations (possibly over different requests, time
sources and instruction tables) whose composed messages coincide and whose
credentials carry the same seed produce byte-identical signatures; the
symmetric HMAC-SHA256 variant of the spec and the repository's test is a
pure function of (secret, message) as well. -/
theorem C9_signature_deterministic (auth1 auth2 : BackpackAuth) (c1 c2 : Consts)
    (src1 src2 : Nat → Int) (i1 i2 : Nat) (req1 req2 : RESTRequest)
    (skey m1 m2 : String)
    (hseed : auth1.secret_seed = auth2.secret_seed)
    (hmsg : composeMessage (get_instruction c1 req1) (get_sorted_params req1).1
        (src1 i1) (windowOf req1) =
      composeMessage (get_instruction c2 req2) (get_sorted_params req2).1
        (src2 i2) (windowOf req2))
    (hm : m1 = m2) :
    (sign_payload c1 auth1 src1 i1 req1).signature =
      (sign_payload c2 auth2 src2 i2 req2).signature ∧
    hmacSha256Hexdigest skey m1 = hmacSha256Hexdigest skey m2 := by
  subst hm
  refine ⟨?_, rfl⟩
  show b64encodeStr (ed25519_sign auth1.secret_seed (utf8Encode _)) =
    b64encodeStr (ed25519_sign auth2.secret_seed (utf8Encode _))
  rw [hseed, hmsg]

/-- C9 witness: two different requests whose parameter dicts hold the same
pairs in different insertion order compose the same message, hence get the
same signature. -/
theorem C9_witness :
    (⟨"k1", List.replicate 32 0⟩ : BackpackAuth).secret_seed =
        (⟨"k2", List.replicate 32 0⟩ : BackpackAuth).secret_seed ∧
    composeMessage
        (get_instruction ⟨"/api/v1", "/wapi/v1"⟩
          ⟨.GET, "https://x/y", some [("b", .s "2"), ("a", .s "1")], none, none⟩)
        (get_sorted_params
          ⟨.GET, "https://x/y", some [("b", .s "2"), ("a", .s "1")], none, none⟩).1
        ((fun _ => (7 : Int)) 0)
        (windowOf ⟨.GET, "https://x/y", some [("b", .s "2"), ("a", .s "1")], none, none⟩) =
      composeMessage
        (get_instruction ⟨"/api/v1", "/wapi/v1"⟩
          ⟨.GET, "https://x/y", some [("a", .s "1"), ("b", .s "2")], none, none⟩)
        (get_sorted_params
          ⟨.GET, "https://x/y", some [("a", .s "1"), ("b", .s "2")], none, none⟩).1
        ((fun _ => (7 : Int)) 0)
        (windowOf ⟨.GET, "https://x/y", some [("a", .s "1"), ("b", .s "2")], none, none⟩) ∧
    (sign_payload ⟨"/api/v1", "/wapi/v1"⟩ ⟨"k1", List.replicate 32 0⟩
        (fun _ => (7 : Int)) 0
        ⟨.GET, "https://x/y", some [("b", .s "2"), ("a", .s "1")], none, none⟩).signature =
      (sign_payload ⟨"/api/v1", "/wapi/v1"⟩ ⟨"k2", List.replicate 32 0⟩
        (fun _ => (7 : Int)) 0
        ⟨.GET, "https://x/y", some [("a", .s "1"), ("b", .s "2")], none, none⟩).signature :=
  ⟨rfl, by decide,
    (C9_signature_deterministic ⟨"k1", List.replicate 32 0⟩ ⟨"k2", List.replicate 32 0⟩
      ⟨"/api/v1", "/wapi/v1"⟩ ⟨"/api/v1", "/wapi/v1"⟩
      (fun _ => (7 : Int)) (fun _ => (7 : Int)) 0 0
      ⟨.GET, "https://x/y", some [("b", .s "2"), ("a", .s "1")], none, none⟩
      ⟨.GET, "https://x/y", some [("a", .s "1"), ("b", .s "2")], none, none⟩
      "s" "m" "m" rfl (by decide) rfl).1⟩

/-- C7: canonicalization is insertion-order independent — two requests whose
query dicts hold the same pairs (in any order) and whose body dicts hold the
same pairs produce identical canonical parameter lists; the canonical list
is strictly ascending in its keys (code-point lexicographic); and a key
present in both query and body canonicalizes to the body value. -/
theorem C7_canonicalization_order_independent (req1 req2 : RESTRequest)
    (hp : (req1.params.getD []).Perm (req2.params.getD []))
    (hd : (req1.data.getD []).Perm (req2.data.getD []))
    (hn : keysNodup (req1.params.getD []))
    (hnd : keysNodup (req1.data.getD [])) :
    (get_sorted_params req1).1 = (get_sorted_params req2).1 ∧
    (get_sorted_params req1).1.Pairwise paramKeyLT ∧
    (∀ k vq vb, (k, vq) ∈ req1.params.getD [] → (k, vb) ∈ req1.data.getD [] →
      lookupKey k (get_sorted_params req1).1 = some vb) := by
  have hn2 : keysNodup (req2.params.getD []) := keysNodup_perm hp hn
  have hnd2 : keysNodup (req2.data.getD []) := keysNodup_perm hd hnd
  have hm1 : keysNodup (dictUpdate (req1.params.getD []) (req1.data.getD [])) :=
    keysNodup_dictUpdate _ hn
  have hm2 : keysNodup (dictUpdate (req2.params.getD []) (req2.data.getD [])) :=
    keysNodup_dictUpdate _ hn2
  have hlook : ∀ k,
      lookupKey k (dictUpdate (req1.params.getD []) (req1.data.getD [])) =
        lookupKey k (dictUpdate (req2.params.getD []) (req2.data.getD [])) := by
    intro k
    rw [lookupKey_dictUpdate hnd, lookupKey_dictUpdate hnd2,
      lookupKey_perm hd hnd k, lookupKey_perm hp hn k]
  have hperm := perm_of_lookupKey_eq hm1 hm2 hlook
  have hsort1 : (get_sorted_params req1).1 =
      List.insertionSort paramKeyLE
        (dictUpdate (req1.params.getD []) (req1.data.getD [])) := rfl
  have hsort2 : (get_sorted_params req2).1 =
      List.insertionSort paramKeyLE
        (dictUpdate (req2.params.getD []) (req2.data.getD [])) := rfl
  refine ⟨?_, ?_, ?_⟩
  · rw [hsort1, hsort2]
    exact canonical_eq hm1 hm2 hperm
  · rw [hsort1]
    exact sorted_keys_of_nodup hm1
  · intro k vq vb hq hb
    have hns : keysNodup (List.insertionSort paramKeyLE
        (dictUpdate (req1.params.getD []) (req1.data.getD []))) :=
      keysNodup_perm (List.perm_insertionSort paramKeyLE _).symm hm1
    rw [hsort1, lookupKey_perm (List.perm_insertionSort paramKeyLE _) hns k,
      lookupKey_dictUpdate hnd, lookupKey_eq_some_of_mem hnd hb]

/-- C7 witness: the same two query pairs in both insertion orders, with a
body that overrides key `"a"`. -/
theorem C7_witness :
    ([("b", PV.s "2"), ("a", PV.s "1")] :
        Params).Perm [("a", PV.s "1"), ("b", PV.s "2")] ∧
    ([("a", PV.s "9")] : Params).Perm [("a", PV.s "9")] ∧
    keysNodup [("b", PV.s "2"), ("a", PV.s "1")] ∧
    keysNodup [("a", PV.s "9")] ∧
    (get_sorted_params
        ⟨.GET, "https://x/y", some [("b", PV.s "2"), ("a", PV.s "1")],
          some [("a", PV.s "9")], none⟩).1 =
      (get_sorted_params
        ⟨.GET, "https://x/y", some [("a", PV.s "1"), ("b", PV.s "2")],
          some [("a", PV.s "9")], none⟩).1 :=
  ⟨by decide, by decide, by decide, by decide,
    (C7_canonicalization_order_independent
      ⟨.GET, "https://x/y", some [("b", PV.s "2"), ("a", PV.s "1")],
        some [("a", PV.s "9")], none⟩
      ⟨.GET, "https://x/y", some [("a", PV.s "1"), ("b", PV.s "2")],
        some [("a", PV.s "9")], none⟩
      (by decide) (by decide) (by decide) (by decide)).1⟩
